import Mathlib

/-!
Shallow embedding of `ClickEncoder.cpp` (rotary encoder driver with
acceleration and click/double-click/hold button classification), together
with theorems settling the specification claims about it.

Conventions of the embedding:
* C integer fields become `Nat`/`Int`.  All values that the claims range
  over stay far below the width of the original machine types
  (`acceleration ≤ 3072 < 2^16`, `delta` changes by at most 1 per tick), so
  no wrap-around modelling is needed; the one guarded subtraction in the
  source (`if (acceleration >= ENC_ACCEL_DEC) ... else acceleration = 0`)
  is translated literally.
* `digitalRead(pin) == pinsActive` readings and `millis()` are inputs of a
  tick, bundled in `Inputs`.
* Two's-complement bit tests on the small signed `diff` are rendered with
  `Int.emod`: for any `d : Int`, C's `d & 1` is nonzero iff `d % 2 ≠ 0`,
  and C's `d & 2` equals `(d % 4).toNat &&& 2` (`Int.emod` by a positive
  modulus is the nonnegative remainder, i.e. the low bits of the
  two's-complement representation).
* The repository contains only `ClickEncoder.cpp`; its header (enum and
  field declarations, default thresholds) is not in the sources, so the
  `Button` enumeration and the initial counter values are modelled from the
  spec where noted, and the two runtime thresholds are kept as parameters.
* The file models the `ENC_NORMAL` decoder (the configuration the claims
  are about) with the button channel compiled in (no `WITHOUT_BUTTON`).
-/

/-- Modelled from the spec: the externally visible button states
`{Open, Held, Released, Clicked, DoubleClicked}` (the enum itself is
declared in the missing header `ClickEncoder.h`; these five variants are
the ones the implementation file assigns and compares). -/
inductive Button where
  | Open
  | Held
  | Released
  | Clicked
  | DoubleClicked
deriving DecidableEq, Repr

/-- Constant `ENC_BUTTONINTERVAL = 10`: button sampled every 10 ms. -/
def encButtonInterval : Nat := 10

/-- Constant `ENC_ACCEL_TOP = 3072`: the acceleration ceiling. -/
def encAccelTop : Nat := 3072

/-- Constant `ENC_ACCEL_INC = 25`: acceleration growth per moved tick. -/
def encAccelInc : Nat := 25

/-- Constant `ENC_ACCEL_DEC = 2`: acceleration decay per tick. -/
def encAccelDec : Nat := 2

/-- Constant `ENC_SINGLECLICKONLY = 1`: single-click sentinel countdown. -/
def encSingleClickOnly : Nat := 1

/-- The three button-machine fields the per-sampling-interval body of
`ClickEncoder::service` reads and writes: `button`, `keyDownTicks`,
`doubleClickTicks`. -/
structure BtnCore where
  button : Button
  keyDownTicks : Nat
  doubleClickTicks : Nat
deriving DecidableEq, Repr

/-- One execution of the button body of `ClickEncoder::service`
(lines 151–186): the debounce/classification state machine run once per
sampling interval.  `down` is `digitalRead(pinBTN) == pinsActive`.
Besides the successor state it returns the list of assignments made to
`button` during this interval, in order (the "events" this interval
produced). -/
def buttonStep (dcEnabled heldEnabled : Bool) (holdTime dcTime : Nat)
    (c : BtnCore) (down : Bool) : BtnCore × List Button :=
  -- key is down (line 151)
  let p1 : BtnCore × List Button :=
    if down then
      let k := c.keyDownTicks + 1
      if k > holdTime / encButtonInterval ∧ heldEnabled then
        (⟨Button.Held, k, c.doubleClickTicks⟩, [Button.Held])
      else (⟨c.button, k, c.doubleClickTicks⟩, [])
    else (c, [])
  let c1 := p1.1
  -- key is now up (line 158)
  let p2 : BtnCore × List Button :=
    if ¬ down then
      if c1.keyDownTicks > 1 then
        if c1.button = Button.Held then
          (⟨Button.Released, 0, 0⟩, [Button.Released])
        else
          if c1.doubleClickTicks > encSingleClickOnly then
            if c1.doubleClickTicks < dcTime / encButtonInterval then
              (⟨Button.DoubleClicked, 0, 0⟩, [Button.DoubleClicked])
            else (⟨c1.button, 0, c1.doubleClickTicks⟩, [])
          else
            (⟨c1.button, 0,
              if dcEnabled then dcTime / encButtonInterval
              else encSingleClickOnly⟩, [])
      else (⟨c1.button, 0, c1.doubleClickTicks⟩, [])
    else (c1, [])
  let c2 := p2.1
  -- double-click countdown (line 181)
  let p3 : BtnCore × List Button :=
    if c2.doubleClickTicks > 0 then
      let d := c2.doubleClickTicks - 1
      if d = 0 then (⟨Button.Clicked, c2.keyDownTicks, 0⟩, [Button.Clicked])
      else (⟨c2.button, c2.keyDownTicks, d⟩, [])
    else (c2, [])
  (p3.1, p1.2 ++ p2.2 ++ p3.2)

/-- The full state of a `ClickEncoder` object: the fields of the class as
used by `ClickEncoder.cpp`.  Field types follow the source's uses
(signed accumulator `delta`, 2-bit phase code `last`, nonnegative
`acceleration` counter, pin numbers as signed ints so `-1` disables a
channel). -/
structure ClickEncoder where
  doubleClickEnabled : Bool
  buttonHeldEnabled : Bool
  accelerationEnabled : Bool
  delta : Int
  last : Nat
  acceleration : Nat
  button : Button
  steps : Nat
  pinA : Int
  pinB : Int
  pinBTN : Int
  pinsActive : Bool
  keyDownTicks : Nat
  doubleClickTicks : Nat
  lastButtonCheck : Nat
  buttonHoldTime : Nat
  buttonDoubleClickTime : Nat
deriving DecidableEq, Repr

/-- The environment's contribution to one `service()` call: the phase and
button line readings (already compared against `pinsActive`, i.e. `a` is
`digitalRead(pinA) == pinsActive`), and the value of `millis()`. -/
structure Inputs where
  a : Bool
  b : Bool
  btn : Bool
  now : Nat
deriving DecidableEq, Repr

/-- The button body of `service` applied to the full object state:
updates the three `BtnCore` fields, leaves everything else alone. -/
def buttonSample (s : ClickEncoder) (down : Bool) : ClickEncoder × List Button :=
  let r := buttonStep s.doubleClickEnabled s.buttonHeldEnabled
    s.buttonHoldTime s.buttonDoubleClickTime
    ⟨s.button, s.keyDownTicks, s.doubleClickTicks⟩ down
  ({s with button := r.1.button, keyDownTicks := r.1.keyDownTicks,
           doubleClickTicks := r.1.doubleClickTicks}, r.2)

/-- The 2-bit phase code of `ENC_NORMAL` decoding (lines 114–122):
`curr = 3` when phase A reads active, then `curr ^= 1` when phase B reads
active. -/
def encCode (a b : Bool) : Nat :=
  (if a then 3 else 0) ^^^ (if b then 1 else 0)

/-- The step direction `(diff & 2) - 1` of line 128, on the two's
complement reading of the signed `diff`: the low two bits of `diff` are
`(diff % 4).toNat`. -/
def stepDir (diff : Int) : Int :=
  (((diff % 4).toNat &&& 2 : Nat) : Int) - 1

/-- The encoder half of `ClickEncoder::service` (lines 87–141):
acceleration decay, `ENC_NORMAL` decode, acceleration growth.  Returns
the updated state and the local `moved` flag.  The gate reproduces the
source literally: line 87 tests `pinA >= 0 && pinA >= 0` — `pinB` is
never tested. -/
def encTick (s : ClickEncoder) (i : Inputs) : ClickEncoder × Bool :=
  if 0 ≤ s.pinA ∧ 0 ≤ s.pinA then
    -- decelerate every tick (lines 88–95)
    let acc1 := if s.accelerationEnabled then
        (if s.acceleration ≥ encAccelDec then s.acceleration - encAccelDec else 0)
      else s.acceleration
    let curr : Nat := encCode i.a i.b
    let diff : Int := (s.last : Int) - (curr : Int)
    if diff % 2 ≠ 0 then            -- bit 0 of diff = step (line 126): moved
      -- increment accelerator if moved (lines 135–140)
      let acc2 := if s.accelerationEnabled then
          (if acc1 ≤ encAccelTop - encAccelInc then acc1 + encAccelInc else acc1)
        else acc1
      ({s with acceleration := acc2, last := curr, delta := s.delta + stepDir diff}, true)
    else                            -- not moved: lines 135–140 leave acc1
      ({s with acceleration := acc1}, false)
  else (s, false)

/-- The method `ClickEncoder::service` (lines 83–190), `ENC_NORMAL` decoder.
Returns the successor state, the local `moved` flag, and the list of
button events (assignments to `button`) this call produced. -/
def serviceFull (s : ClickEncoder) (i : Inputs) : ClickEncoder × Bool × List Button :=
  let enc := encTick s i
  let s1 := enc.1
  -- button handling (lines 144–187), gated on pin and elapsed time
  let btn : ClickEncoder × List Button :=
    if 0 ≤ s1.pinBTN ∧ i.now - s1.lastButtonCheck ≥ encButtonInterval then
      buttonSample {s1 with lastButtonCheck := i.now} i.btn
    else (s1, [])
  (btn.1, enc.2, btn.2)

/-- The method `ClickEncoder::service` as a plain state transformer. -/
def service (s : ClickEncoder) (i : Inputs) : ClickEncoder :=
  (serviceFull s i).1

/-- The method `ClickEncoder::getValue` (lines 194–221): drains whole notches out of
`delta`, keeping the sub-notch residual, and collapses the drained count
to a direction scaled by the acceleration bonus.  C's `val & 1` / `val & 3`
are the nonnegative remainders `val % 2` / `val % 4`, and the arithmetic
right shifts `val >> 1` / `val >> 2` are `Int.shiftRight`. -/
def getValue (s : ClickEncoder) : ClickEncoder × Int :=
  let val := s.delta
  let delta' : Int :=
    if s.steps = 2 then val % 2
    else if s.steps = 4 then val % 4
    else 0                       -- default to 1 step per notch
  let val1 := if s.steps = 4 then val >>> (2 : Nat) else val
  let val2 := if s.steps = 2 then val1 >>> (1 : Nat) else val1
  let accel : Int := if s.accelerationEnabled then ((s.acceleration >>> 8 : Nat) : Int) else 0
  let r : Int := if val2 < 0 then -(1 + accel) else if val2 > 0 then 1 + accel else 0
  ({s with delta := delta'}, r)

/-- The method `ClickEncoder::getButton` (lines 226–233): report the current state,
then reset it to `Open` unless it is `Held` (or already `Open`). -/
def getButton (s : ClickEncoder) : ClickEncoder × Button :=
  let ret := s.button
  let button' := if s.button ≠ Button.Held ∧ ret ≠ Button.Open then Button.Open else s.button
  ({s with button := button'}, ret)

/-- The encoder constructor (lines 44–64): flags default to `true`,
counters to zero, `last` is initialised from the current pin readings
(`rA`, `rB` are `digitalRead(pinA/B) == pinsActive` at construction).
The two runtime thresholds live in the missing header, so they are
parameters here; `lastButtonCheck`, `keyDownTicks` and `doubleClickTicks`
start at zero (modelled from the spec's "countdown"/"consecutive
intervals" counters, which begin with nothing pending).  The button-only
constructor (lines 69–77) is the instance `A = B = -1`, `stepsPerNotch = 1`,
`rA = rB = false`. -/
def mkInit (A B BTN : Int) (stepsPerNotch : Nat) (active : Bool)
    (rA rB : Bool) (holdTime dcTime : Nat) : ClickEncoder :=
  { doubleClickEnabled := true
    buttonHeldEnabled := true
    accelerationEnabled := true
    delta := 0
    last := (if rA then 3 else 0) ^^^ (if rB then 1 else 0)
    acceleration := 0
    button := Button.Open
    steps := stepsPerNotch
    pinA := A
    pinB := B
    pinBTN := BTN
    pinsActive := active
    keyDownTicks := 0
    doubleClickTicks := 0
    lastButtonCheck := 0
    buttonHoldTime := holdTime
    buttonDoubleClickTime := dcTime }

/-- Iterated `service` over a list of tick inputs, concatenating the
button events of each tick in order. -/
def runService : ClickEncoder → List Inputs → ClickEncoder × List Button
  | s, [] => (s, [])
  | s, i :: rest =>
    let r := serviceFull s i
    let t := runService r.1 rest
    (t.1, r.2.2 ++ t.2)

/-- Iterated `buttonStep` over a list of per-sampling-interval button
readings, concatenating the events. -/
def btnRun (dcEnabled heldEnabled : Bool) (holdTime dcTime : Nat) :
    BtnCore → List Bool → BtnCore × List Button
  | c, [] => (c, [])
  | c, d :: rest =>
    let r := buttonStep dcEnabled heldEnabled holdTime dcTime c d
    let t := btnRun dcEnabled heldEnabled holdTime dcTime r.1 rest
    (t.1, r.2 ++ t.2)

/-- Tick inputs that exercise only the button channel: phases read
inactive, `millis()` advances by exactly one sampling interval per tick
starting from `c`, so every tick passes the 10 ms gate. -/
def btnInputs (c : Nat) : List Bool → List Inputs
  | [] => []
  | d :: rest => ⟨false, false, d, c + encButtonInterval⟩ ::
      btnInputs (c + encButtonInterval) rest

/-- The ticks of `l`, run from `s`, all decode "no movement". -/
def idleFrom : ClickEncoder → List Inputs → Prop
  | _, [] => True
  | s, i :: rest => (serviceFull s i).2.1 = false ∧ idleFrom (serviceFull s i).1 rest

/-- States reachable from construction through any sequence of
`service()` and `getValue()` calls. -/
inductive Reachable : ClickEncoder → Prop where
  | init (A B BTN : Int) (stepsPerNotch : Nat) (active rA rB : Bool)
      (holdTime dcTime : Nat) :
      Reachable (mkInit A B BTN stepsPerNotch active rA rB holdTime dcTime)
  | tick {s : ClickEncoder} (i : Inputs) : Reachable s → Reachable (service s i)
  | value {s : ClickEncoder} : Reachable s → Reachable (getValue s).1

/-! ## Concrete instances used by witnesses and counterexamples -/

/-- A concrete encoder-only instance (phase pins 0 and 1, no button),
`stepsPerNotch = 1`, used by witnesses. -/
def encState0 : ClickEncoder := mkInit 0 1 (-1) 1 true false false 1000 400

/-- A concrete state for the C2 witness: `stepsPerNotch = 2`, a drainable
negative accumulation, mid-range acceleration. -/
def valState0 : ClickEncoder :=
  { mkInit 0 1 (-1) 2 true false false 1000 400 with delta := -3, acceleration := 300 }

/-- A tick reading phase B active (phase code 1). -/
def tickT : Inputs := ⟨false, true, false, 0⟩

/-- A tick reading both phases inactive (phase code 0). -/
def tickF : Inputs := ⟨false, false, false, 0⟩

/-- Some `n` repetitions of the two-tick pattern code 1, code 0: from
`last = 0` every tick decodes as a unit step. -/
def chunkList : Nat → List Inputs
  | 0 => []
  | n + 1 => tickT :: tickF :: chunkList n

/-- A concrete state for the C4 witness: level 100, acceleration on. -/
def accelState0 : ClickEncoder := { encState0 with acceleration := 100 }

/-- The state after one warm-up chunk, 65 more chunks, and one further
moving tick: level 3061, phase code 1 — all through ordinary `service`
ticks from a fresh encoder. -/
def cexMid : ClickEncoder :=
  (runService (runService encState0 [tickT, tickF]).1 (chunkList 65)).1

def cexAccelState : ClickEncoder := (serviceFull cexMid tickT).1

/-! ## Frame lemmas -/

/-- The function `buttonSample` touches only the three `BtnCore` fields. -/
lemma buttonSample_delta (s : ClickEncoder) (d : Bool) :
    (buttonSample s d).1.delta = s.delta := rfl

lemma buttonSample_last (s : ClickEncoder) (d : Bool) :
    (buttonSample s d).1.last = s.last := rfl

lemma buttonSample_acceleration (s : ClickEncoder) (d : Bool) :
    (buttonSample s d).1.acceleration = s.acceleration := rfl

/-- The encoder half touches only `acceleration`, `last` and `delta`. -/
lemma encTick_button (s : ClickEncoder) (i : Inputs) :
    (encTick s i).1.button = s.button := by
  unfold encTick; dsimp only; split_ifs <;> rfl

lemma encTick_pinBTN (s : ClickEncoder) (i : Inputs) :
    (encTick s i).1.pinBTN = s.pinBTN := by
  unfold encTick; dsimp only; split_ifs <;> rfl

lemma encTick_lastButtonCheck (s : ClickEncoder) (i : Inputs) :
    (encTick s i).1.lastButtonCheck = s.lastButtonCheck := by
  unfold encTick; dsimp only; split_ifs <;> rfl

/-- The `delta` after a full `service` call is the `delta` the decoder half
computed. -/
lemma serviceFull_delta (s : ClickEncoder) (i : Inputs) :
    (serviceFull s i).1.delta = (encTick s i).1.delta := by
  simp only [serviceFull]
  split <;> rfl

lemma serviceFull_last (s : ClickEncoder) (i : Inputs) :
    (serviceFull s i).1.last = (encTick s i).1.last := by
  simp only [serviceFull]
  split <;> rfl

lemma serviceFull_acceleration (s : ClickEncoder) (i : Inputs) :
    (serviceFull s i).1.acceleration = (encTick s i).1.acceleration := by
  simp only [serviceFull]
  split <;> rfl

lemma serviceFull_moved (s : ClickEncoder) (i : Inputs) :
    (serviceFull s i).2.1 = (encTick s i).2 := rfl

/-- An odd `diff` steps by exactly `+1` or `-1` (line 128's
`(diff & 2) - 1`). -/
lemma stepDir_eq_one_or_neg_one (d : Int) (h : d % 2 ≠ 0) :
    stepDir d = 1 ∨ stepDir d = -1 := by
  have h4 : d % 4 = 1 ∨ d % 4 = 3 := by omega
  rcases h4 with h4 | h4
  · right; rw [stepDir, h4]; decide
  · left; rw [stepDir, h4]; decide

/-! ## Claim theorems -/

/-- C1: In Normal decode mode, every `service()` tick forms the 2-bit code
`curr` with bit1 = phaseA and bit0 = phaseA XOR phaseB, computes
`diff = last - curr`, and: if `diff`'s low bit is set it adds
`(diff & 2) - 1` (which is +1 or -1) to `delta`, sets `last = curr`, and
reports movement; if the low bit is clear it leaves both `delta` and
`last` unchanged and reports no movement, for every prior value of `last`
(a 2-bit code) and every pair of phase readings. -/
theorem serviceNormalDecodeStep (s : ClickEncoder) (i : Inputs)
    (hA : 0 ≤ s.pinA) (hlast : s.last < 4) :
    ((encCode i.a i.b : Nat) =
        2 * (if i.a then 1 else 0) + (if i.a ≠ i.b then 1 else 0)) ∧
    (((s.last : Int) - (encCode i.a i.b : Int)) % 2 ≠ 0 →
      (serviceFull s i).1.delta =
          s.delta + stepDir ((s.last : Int) - (encCode i.a i.b : Int)) ∧
      (stepDir ((s.last : Int) - (encCode i.a i.b : Int)) = 1 ∨
        stepDir ((s.last : Int) - (encCode i.a i.b : Int)) = -1) ∧
      (serviceFull s i).1.last = encCode i.a i.b ∧
      (serviceFull s i).2.1 = true) ∧
    (((s.last : Int) - (encCode i.a i.b : Int)) % 2 = 0 →
      (serviceFull s i).1.delta = s.delta ∧
      (serviceFull s i).1.last = s.last ∧
      (serviceFull s i).2.1 = false) := by
  refine ⟨?_, ?_, ?_⟩
  · cases ha : i.a <;> cases hb : i.b <;> simp [encCode, ha, hb]
  · intro h
    refine ⟨?_, stepDir_eq_one_or_neg_one _ h, ?_, ?_⟩ <;>
      simp [serviceFull_delta, serviceFull_last, serviceFull_moved, encTick, hA, h]
  · intro h
    refine ⟨?_, ?_, ?_⟩ <;>
      simp [serviceFull_delta, serviceFull_last, serviceFull_moved, encTick, hA, h]

/-- Witness for C1: from `last = 0`, reading phases (inactive, active)
gives `curr = 1`, an odd `diff = -1`, hence a `+1` step. -/
theorem serviceNormalDecodeStep_witness :
    0 ≤ encState0.pinA ∧ encState0.last < 4 ∧
    ((serviceFull encState0 ⟨false, true, false, 0⟩).1.delta =
      encState0.delta + stepDir ((encState0.last : Int) - (encCode false true : Int)) ∧
     (serviceFull encState0 ⟨false, true, false, 0⟩).1.last = encCode false true ∧
     (serviceFull encState0 ⟨false, true, false, 0⟩).2.1 = true) :=
  ⟨by decide, by decide,
    ((serviceNormalDecodeStep encState0 ⟨false, true, false, 0⟩
        (by decide) (by decide)).2.1 (by decide)).imp_right And.right⟩

/-- C3: Every call to `getButton()` returns the current button state, and
afterwards the stored state is `Open` unless the returned state was
`Held`, which persists across reads; hence an immediately following
`getButton()` returns `Open` whenever the first returned a one-shot event
(`Clicked`, `DoubleClicked`, `Released`), while it keeps returning `Held`
during a hold. -/
theorem getButtonReadReset (s : ClickEncoder) :
    (getButton s).2 = s.button ∧
    (getButton s).1.button =
      (if s.button = Button.Held then Button.Held else Button.Open) ∧
    (getButton (getButton s).1).2 =
      (if s.button = Button.Held then Button.Held else Button.Open) := by
  cases h : s.button <;> simp [getButton, h]

/-- C8 (code_bug evidence): an encoder constructed with `pinA = 0` but
`pinB = -1` still decodes — line 87's gate tests `pinA >= 0` twice and
never `pinB` — so a tick whose phase-B line reads active steps `delta`
and `last`, where the claim says the whole encoder channel is disabled
and those fields stay unchanged. -/
theorem servicePinBNegativeStillDecodes :
    (mkInit 0 (-1) (-1) 1 true false false 1000 400).pinB < 0 ∧
    (mkInit 0 (-1) (-1) 1 true false false 1000 400).delta = 0 ∧
    (mkInit 0 (-1) (-1) 1 true false false 1000 400).last = 0 ∧
    (serviceFull (mkInit 0 (-1) (-1) 1 true false false 1000 400)
        ⟨false, true, false, 0⟩).1.delta = 1 ∧
    (serviceFull (mkInit 0 (-1) (-1) 1 true false false 1000 400)
        ⟨false, true, false, 0⟩).1.last = 1 := by
  decide

/-- Supporting fact (not a claim theorem): when `accelerationEnabled` is
false, a `service()` tick leaves the acceleration level unchanged — both
the decay (lines 88–95) and the growth (lines 135–140) are gated on the
flag.  This covers only `service()`: what happens to the level across
the runtime toggle itself (`setAccelerationEnabled`, declared in the
header, which is not among these sources) is not decidable here. -/
lemma serviceAccelDisabledFrozen (s : ClickEncoder) (i : Inputs)
    (h : s.accelerationEnabled = false) :
    (serviceFull s i).1.acceleration = s.acceleration := by
  rw [serviceFull_acceleration]
  unfold encTick
  dsimp only
  split_ifs <;> simp_all

/-- Instance of the previous lemma: a moving tick at level 500 with
acceleration disabled leaves the level at 500. -/
lemma serviceAccelDisabledFrozen_witness :
    ({ encState0 with accelerationEnabled := false, acceleration := 500
        }).accelerationEnabled = false ∧
    (serviceFull { encState0 with accelerationEnabled := false, acceleration := 500 }
        ⟨false, true, false, 0⟩).1.acceleration =
      ({ encState0 with accelerationEnabled := false, acceleration := 500 }).acceleration :=
  ⟨rfl, serviceAccelDisabledFrozen _ ⟨false, true, false, 0⟩ rfl⟩

/-- C2: for every `getValue()` call with `stepsPerNotch ∈ {1,2,4}`:
afterwards `delta` keeps only the sub-notch residual (the low
`log2(stepsPerNotch)` bits, i.e. `delta mod stepsPerNotch`), so
`old delta = stepsPerNotch * drained + residual` where `drained` is the
old `delta` arithmetically right-shifted by `log2(stepsPerNotch)`
(= floor division); the return value collapses `drained` to a direction:
0 when zero, `-(1+bonus)` when negative, `+(1+bonus)` when positive,
with `bonus = acceleration >> 8` if acceleration is enabled else 0,
and `bonus ≤ 12` whenever `acceleration ≤ 3072`. -/
theorem getValueDrain (s : ClickEncoder)
    (hs : s.steps = 1 ∨ s.steps = 2 ∨ s.steps = 4) :
    (getValue s).1.delta = s.delta % (s.steps : Int) ∧
    s.delta = (s.steps : Int) * (s.delta / (s.steps : Int)) + (getValue s).1.delta ∧
    (getValue s).2 =
      (if s.delta / (s.steps : Int) < 0 then
        -(1 + (if s.accelerationEnabled then ((s.acceleration >>> 8 : Nat) : Int) else 0))
      else if 0 < s.delta / (s.steps : Int) then
        1 + (if s.accelerationEnabled then ((s.acceleration >>> 8 : Nat) : Int) else 0)
      else 0) ∧
    (s.acceleration ≤ 3072 →
      (if s.accelerationEnabled then ((s.acceleration >>> 8 : Nat) : Int) else 0) ≤ 12) := by
  have hshift1 : ∀ v : Int, v >>> (1 : Nat) = v / 2 := by
    intro v; rw [Int.shiftRight_eq_div_pow]; norm_num
  have hshift2 : ∀ v : Int, v >>> (2 : Nat) = v / 4 := by
    intro v; rw [Int.shiftRight_eq_div_pow]; norm_num
  have haccel : s.acceleration ≤ 3072 →
      (if s.accelerationEnabled then ((s.acceleration >>> 8 : Nat) : Int) else 0) ≤ 12 := by
    intro ha
    have h8 : s.acceleration >>> 8 = s.acceleration / 256 := by
      rw [Nat.shiftRight_eq_div_pow]
    split
    · rw [h8]
      have : s.acceleration / 256 ≤ 12 := by omega
      exact_mod_cast this
    · norm_num
  rcases hs with h | h | h <;>
    refine ⟨?_, ?_, ?_, haccel⟩ <;>
    (try simp [getValue, h, hshift1, hshift2]) <;>
    (try omega)

/-- Witness for C2 at `valState0` (`steps = 2`, `delta = -3`,
`acceleration = 300`, enabled): residual 1, one negative notch drained. -/
theorem getValueDrain_witness :
    (valState0.steps = 1 ∨ valState0.steps = 2 ∨ valState0.steps = 4) ∧
    ((getValue valState0).1.delta = valState0.delta % (valState0.steps : Int) ∧
     valState0.delta = (valState0.steps : Int) * (valState0.delta / (valState0.steps : Int)) +
        (getValue valState0).1.delta ∧
     (getValue valState0).2 =
       (if valState0.delta / (valState0.steps : Int) < 0 then
         -(1 + (if valState0.accelerationEnabled then
             ((valState0.acceleration >>> 8 : Nat) : Int) else 0))
       else if 0 < valState0.delta / (valState0.steps : Int) then
         1 + (if valState0.accelerationEnabled then
             ((valState0.acceleration >>> 8 : Nat) : Int) else 0)
       else 0) ∧
     (valState0.acceleration ≤ 3072 →
       (if valState0.accelerationEnabled then
           ((valState0.acceleration >>> 8 : Nat) : Int) else 0) ≤ 12)) :=
  ⟨Or.inr (Or.inl rfl), getValueDrain valState0 (Or.inr (Or.inl rfl))⟩

/-- C7 counterexample: two same-direction decoder ticks from a fresh
encoder with `stepsPerNotch = 1` (no intervening `getValue()`) leave
`delta = 2`, whose magnitude exceeds `stepsPerNotch = 1` — the claimed
bound does not hold at every point of every call sequence. -/
theorem deltaExceedsStepsCex :
    encState0.steps = 1 ∧
    (runService encState0 [⟨false, true, false, 0⟩, ⟨true, true, false, 0⟩]).1.delta = 2 ∧
    ¬((runService encState0 [⟨false, true, false, 0⟩,
        ⟨true, true, false, 0⟩]).1.delta.natAbs ≤ encState0.steps) := by
  decide

/-- A decoder tick changes `delta` by 0 or by a unit step. -/
lemma encTick_delta (s : ClickEncoder) (i : Inputs) :
    (encTick s i).1.delta = s.delta ∨
    ∃ d : Int, (d = 1 ∨ d = -1) ∧ (encTick s i).1.delta = s.delta + d := by
  unfold encTick
  dsimp only
  split_ifs <;>
    first
      | (left; rfl)
      | (right; exact ⟨_, stepDir_eq_one_or_neg_one _ (by assumption), rfl⟩)

/-- C7 (amended): the bound holds at the read boundary, not between
reads: immediately after every `getValue()` call with
`stepsPerNotch ∈ {1,2,4}` the residual `delta` lies in
`[0, stepsPerNotch)`, so its magnitude is below `stepsPerNotch`; a single
`service()` tick changes `delta` by at most 1 in magnitude, so the
accumulator can exceed the bound only by unread ticks piling up between
`getValue()` calls. -/
theorem deltaResidualBound (s : ClickEncoder)
    (hs : s.steps = 1 ∨ s.steps = 2 ∨ s.steps = 4) :
    0 ≤ (getValue s).1.delta ∧ (getValue s).1.delta < (s.steps : Int) ∧
    ∀ i : Inputs, ((serviceFull s i).1.delta - s.delta).natAbs ≤ 1 := by
  refine ⟨?_, ?_, ?_⟩
  · rcases hs with h | h | h <;> simp [getValue, h] <;> omega
  · rcases hs with h | h | h <;> simp [getValue, h] <;> omega
  · intro i
    rw [serviceFull_delta]
    rcases encTick_delta s i with h | ⟨d, hd, h⟩
    · rw [h]; omega
    · rw [h]; rcases hd with rfl | rfl <;> omega

/-- Witness for C7 (amended) at `valState0`. -/
theorem deltaResidualBound_witness :
    (valState0.steps = 1 ∨ valState0.steps = 2 ∨ valState0.steps = 4) ∧
    (0 ≤ (getValue valState0).1.delta ∧
     (getValue valState0).1.delta < (valState0.steps : Int) ∧
     ∀ i : Inputs, ((serviceFull valState0 i).1.delta - valState0.delta).natAbs ≤ 1) :=
  ⟨Or.inr (Or.inl rfl), deltaResidualBound valState0 (Or.inr (Or.inl rfl))⟩

/-! ## Acceleration: further frame and characterization lemmas -/

lemma buttonSample_pinA (s : ClickEncoder) (d : Bool) :
    (buttonSample s d).1.pinA = s.pinA := rfl

lemma buttonSample_accelerationEnabled (s : ClickEncoder) (d : Bool) :
    (buttonSample s d).1.accelerationEnabled = s.accelerationEnabled := rfl

lemma encTick_pinA (s : ClickEncoder) (i : Inputs) :
    (encTick s i).1.pinA = s.pinA := by
  unfold encTick; dsimp only; split_ifs <;> rfl

lemma encTick_accelerationEnabled (s : ClickEncoder) (i : Inputs) :
    (encTick s i).1.accelerationEnabled = s.accelerationEnabled := by
  unfold encTick; dsimp only; split_ifs <;> rfl

lemma serviceFull_pinA (s : ClickEncoder) (i : Inputs) :
    (serviceFull s i).1.pinA = s.pinA := by
  simp only [serviceFull]
  split <;> simp [buttonSample_pinA, encTick_pinA]

lemma serviceFull_accelerationEnabled (s : ClickEncoder) (i : Inputs) :
    (serviceFull s i).1.accelerationEnabled = s.accelerationEnabled := by
  simp only [serviceFull]
  split <;> simp [buttonSample_accelerationEnabled, encTick_accelerationEnabled]

lemma getValue_acceleration (s : ClickEncoder) :
    (getValue s).1.acceleration = s.acceleration := rfl

lemma getValue_pinA (s : ClickEncoder) :
    (getValue s).1.pinA = s.pinA := rfl

lemma getValue_accelerationEnabled (s : ClickEncoder) :
    (getValue s).1.accelerationEnabled = s.accelerationEnabled := rfl

/-- With a disabled encoder channel (negative `pinA`), the decoder half of
`service` is a no-op reporting no movement. -/
lemma encTick_pinA_neg (s : ClickEncoder) (i : Inputs) (h : s.pinA < 0) :
    encTick s i = (s, false) := by
  unfold encTick
  rw [if_neg]
  rintro ⟨h1, -⟩
  omega

/-- On an active encoder channel, movement is reported exactly when the
phase difference is odd. -/
lemma encTick_moved_iff (s : ClickEncoder) (i : Inputs) (hA : 0 ≤ s.pinA) :
    (encTick s i).2 = true ↔
      ((s.last : Int) - (encCode i.a i.b : Int)) % 2 ≠ 0 := by
  unfold encTick
  rw [if_pos ⟨hA, hA⟩]
  dsimp only
  by_cases hc : ((s.last : Int) - (encCode i.a i.b : Int)) % 2 = 0
  · rw [if_neg (by simpa using hc)]
    simpa using hc
  · rw [if_pos hc]
    simpa using hc

/-- Acceleration after an enabled, active, moving tick: decay by 2
(truncated at 0), then grow by 25 exactly when the decayed level is at
most `ENC_ACCEL_TOP - ENC_ACCEL_INC = 3047`. -/
lemma encTick_acc_moved (s : ClickEncoder) (i : Inputs)
    (hA : 0 ≤ s.pinA) (he : s.accelerationEnabled = true)
    (hodd : ((s.last : Int) - (encCode i.a i.b : Int)) % 2 ≠ 0) :
    (encTick s i).1.acceleration =
      (if s.acceleration - encAccelDec ≤ encAccelTop - encAccelInc
       then s.acceleration - encAccelDec + encAccelInc
       else s.acceleration - encAccelDec) := by
  unfold encTick
  rw [if_pos ⟨hA, hA⟩]
  dsimp only
  rw [if_pos hodd]
  simp [he, encAccelDec, encAccelTop, encAccelInc]
  split_ifs <;> omega

/-- Acceleration after an enabled, active, non-moving tick: pure decay by
2, truncated at 0. -/
lemma encTick_acc_notmoved (s : ClickEncoder) (i : Inputs)
    (hA : 0 ≤ s.pinA) (he : s.accelerationEnabled = true)
    (heven : ((s.last : Int) - (encCode i.a i.b : Int)) % 2 = 0) :
    (encTick s i).1.acceleration = s.acceleration - encAccelDec := by
  unfold encTick
  rw [if_pos ⟨hA, hA⟩]
  dsimp only
  rw [if_neg (by simpa using heven)]
  simp [he, encAccelDec]
  omega

/-- Any tick leaves the acceleration at most the max of its old value and
the ceiling. -/
lemma encTick_acceleration_le (s : ClickEncoder) (i : Inputs) :
    (encTick s i).1.acceleration ≤ max s.acceleration encAccelTop := by
  unfold encTick
  simp only [encAccelDec, encAccelTop, encAccelInc]
  split_ifs <;> simp <;> omega

/-- A tick that reports no movement cannot increase the acceleration. -/
lemma encTick_acceleration_idle_le (s : ClickEncoder) (i : Inputs)
    (h : (encTick s i).2 = false) :
    (encTick s i).1.acceleration ≤ s.acceleration := by
  revert h
  unfold encTick
  simp only [encAccelDec, encAccelTop, encAccelInc]
  split_ifs <;> simp <;> omega

/-! ## C4 and C5: acceleration behaviour -/

/-- A run of ticks from a reachable state reaches only reachable
states. -/
lemma reachable_runService (s : ClickEncoder) (l : List Inputs) (h : Reachable s) :
    Reachable (runService s l).1 := by
  induction l generalizing s with
  | nil => exact h
  | cons i rest ih => exact ih _ (Reachable.tick i h)

/-- C4 (amended): on every `service()` tick with the encoder channel
active and acceleration enabled, the level first decays to
`max(0, level - 2)` (truncated subtraction on `Nat`); if the tick's
decode reported movement it then grows by `ENC_ACCEL_INC = 25` exactly
when the decayed level is at most `ENC_ACCEL_TOP - ENC_ACCEL_INC = 3047`,
and otherwise is left at the decayed value (it is not clamped up to
3072); in the unclamped region (`2 ≤ level ≤ 3049`) a moving tick nets
exactly +23. -/
theorem serviceAccelUpdate (s : ClickEncoder) (i : Inputs)
    (hA : 0 ≤ s.pinA) (he : s.accelerationEnabled = true) :
    ((serviceFull s i).2.1 = true →
      (serviceFull s i).1.acceleration =
        (if s.acceleration - encAccelDec ≤ encAccelTop - encAccelInc
         then s.acceleration - encAccelDec + encAccelInc
         else s.acceleration - encAccelDec)) ∧
    ((serviceFull s i).2.1 = false →
      (serviceFull s i).1.acceleration = s.acceleration - encAccelDec) ∧
    (2 ≤ s.acceleration → s.acceleration ≤ 3049 → (serviceFull s i).2.1 = true →
      (serviceFull s i).1.acceleration = s.acceleration + 23) := by
  have hmv : (serviceFull s i).2.1 = (encTick s i).2 := serviceFull_moved s i
  have hacc : (serviceFull s i).1.acceleration = (encTick s i).1.acceleration :=
    serviceFull_acceleration s i
  have hcase1 : (serviceFull s i).2.1 = true →
      (serviceFull s i).1.acceleration =
        (if s.acceleration - encAccelDec ≤ encAccelTop - encAccelInc
         then s.acceleration - encAccelDec + encAccelInc
         else s.acceleration - encAccelDec) := by
    intro h
    rw [hacc]
    exact encTick_acc_moved s i hA he ((encTick_moved_iff s i hA).mp (hmv ▸ h))
  refine ⟨hcase1, ?_, ?_⟩
  · intro h
    rw [hacc]
    apply encTick_acc_notmoved s i hA he
    by_contra hodd
    have htrue := (encTick_moved_iff s i hA).mpr hodd
    rw [hmv, htrue] at h
    exact Bool.noConfusion h
  · intro h1 h2 h3
    rw [hcase1 h3]
    simp only [encAccelDec, encAccelTop, encAccelInc]
    rw [if_pos (by omega)]
    omega

/-- Witness for C4 (amended): a moving tick at level 100 nets +23. -/
theorem serviceAccelUpdate_witness :
    0 ≤ accelState0.pinA ∧ accelState0.accelerationEnabled = true ∧
    (serviceFull accelState0 ⟨false, true, false, 0⟩).1.acceleration =
      accelState0.acceleration + 23 :=
  ⟨by decide, rfl,
   (serviceAccelUpdate accelState0 ⟨false, true, false, 0⟩ (by decide) rfl).2.2
     (by decide) (by decide) (by decide)⟩

/-- A tick whose phase difference is even reports no movement, in either
gate branch. -/
lemma encTick_not_moved_even (s : ClickEncoder) (i : Inputs)
    (heven : ((s.last : Int) - (encCode i.a i.b : Int)) % 2 = 0) :
    (encTick s i).2 = false := by
  unfold encTick
  dsimp only
  split_ifs <;> first | rfl | (exact absurd heven (by assumption))

/-- A tick whose phase difference is even leaves `last` unchanged. -/
lemma encTick_last_even (s : ClickEncoder) (i : Inputs)
    (heven : ((s.last : Int) - (encCode i.a i.b : Int)) % 2 = 0) :
    (encTick s i).1.last = s.last := by
  unfold encTick
  dsimp only
  split_ifs <;> first | rfl | (exact absurd heven (by assumption))

/-- Reachability invariant: the constructors enable acceleration, the
level never exceeds the ceiling, and a disabled encoder channel pins the
level at 0. -/
lemma reachable_accel_invariant (s : ClickEncoder) (h : Reachable s) :
    s.accelerationEnabled = true ∧ s.acceleration ≤ encAccelTop ∧
      (s.pinA < 0 → s.acceleration = 0) := by
  induction h with
  | init A B BTN st act rA rB hold dc =>
    exact ⟨rfl, by simp [mkInit, encAccelTop], fun _ => rfl⟩
  | @tick s i h ih =>
    rcases ih with ⟨he, hle, hneg⟩
    refine ⟨?_, ?_, ?_⟩
    · rw [service, serviceFull_accelerationEnabled]; exact he
    · rw [service, serviceFull_acceleration]
      have := encTick_acceleration_le s i
      omega
    · intro hpin
      rw [service, serviceFull_pinA] at hpin
      rw [service, serviceFull_acceleration, encTick_pinA_neg _ _ hpin]
      exact hneg hpin
  | @value s h ih =>
    rcases ih with ⟨he, hle, hneg⟩
    refine ⟨?_, ?_, ?_⟩
    · rw [getValue_accelerationEnabled]; exact he
    · rw [getValue_acceleration]; exact hle
    · intro hpin
      rw [getValue_pinA] at hpin
      rw [getValue_acceleration]
      exact hneg hpin

/-- Along a run of no-movement ticks on an enabled, active channel, the
level decays by exactly 2 per tick, truncated at 0. -/
lemma runService_idle_decay (l : List Inputs) :
    ∀ s : ClickEncoder, 0 ≤ s.pinA → s.accelerationEnabled = true → idleFrom s l →
      (runService s l).1.acceleration = s.acceleration - encAccelDec * l.length := by
  induction l with
  | nil => intro s _ _ _; simp [runService]
  | cons i rest ih =>
    intro s hA he hidle
    rcases hidle with ⟨hmv, hrest⟩
    have heven : ((s.last : Int) - (encCode i.a i.b : Int)) % 2 = 0 := by
      by_contra hodd
      have htrue := (encTick_moved_iff s i hA).mpr hodd
      rw [serviceFull_moved] at hmv
      rw [hmv] at htrue
      exact Bool.noConfusion htrue
    have hstep : (serviceFull s i).1.acceleration = s.acceleration - encAccelDec := by
      rw [serviceFull_acceleration]
      exact encTick_acc_notmoved s i hA he heven
    show (runService (serviceFull s i).1 rest).1.acceleration = _
    rw [ih (serviceFull s i).1 (by rwa [serviceFull_pinA])
          (by rwa [serviceFull_accelerationEnabled]) hrest, hstep]
    simp only [List.length_cons, encAccelDec]
    omega

/-- A run of ticks with a disabled encoder channel never touches the
acceleration level. -/
lemma runService_pinA_neg_acceleration (l : List Inputs) :
    ∀ s : ClickEncoder, s.pinA < 0 →
      (runService s l).1.acceleration = s.acceleration := by
  induction l with
  | nil => intro s _; rfl
  | cons i rest ih =>
    intro s hpin
    show (runService (serviceFull s i).1 rest).1.acceleration = _
    rw [ih _ (by rwa [serviceFull_pinA]), serviceFull_acceleration,
        encTick_pinA_neg _ _ hpin]

/-- C5: in every state reachable through `service()`/`getValue()` calls
the acceleration level lies in [0, 3072]; a tick that decodes no
movement never increases it; and from any reachable state, 1536 or more
consecutive no-movement ticks drive it exactly to 0. -/
theorem accelReachableInvariant (s : ClickEncoder) (h : Reachable s) :
    0 ≤ s.acceleration ∧ s.acceleration ≤ 3072 ∧
    (∀ i : Inputs, (serviceFull s i).2.1 = false →
        (serviceFull s i).1.acceleration ≤ s.acceleration) ∧
    (∀ l : List Inputs, 1536 ≤ l.length → idleFrom s l →
        (runService s l).1.acceleration = 0) := by
  obtain ⟨he, hle, hneg⟩ := reachable_accel_invariant s h
  simp only [encAccelTop] at hle
  refine ⟨Nat.zero_le _, hle, ?_, ?_⟩
  · intro i hmv
    rw [serviceFull_acceleration]
    exact encTick_acceleration_idle_le s i (by rwa [serviceFull_moved] at hmv)
  · intro l hlen hidle
    rcases lt_or_le s.pinA 0 with hpin | hpin
    · rw [runService_pinA_neg_acceleration l s hpin]
      exact hneg hpin
    · rw [runService_idle_decay l s hpin he hidle]
      simp only [encAccelDec]
      omega

/-- With stable inactive phase readings the decoder reports no movement,
tick after tick. -/
lemma idleFrom_replicate (n : Nat) :
    ∀ s : ClickEncoder, s.last = 0 →
      idleFrom s (List.replicate n ⟨false, false, false, 0⟩) := by
  induction n with
  | zero => intro s _; trivial
  | succ n ih =>
    intro s h
    refine ⟨?_, ?_⟩
    · rw [serviceFull_moved]
      exact encTick_not_moved_even s _ (by simp [h, encCode])
    · exact ih _ (by rw [serviceFull_last, encTick_last_even s _ (by simp [h, encCode]), h])

/-- Witness for C5: the fresh encoder is reachable, and 1536 idle ticks
leave its acceleration at exactly 0. -/
theorem accelReachableInvariant_witness :
    Reachable encState0 ∧
    (runService encState0 (List.replicate 1536 ⟨false, false, false, 0⟩)).1.acceleration = 0 :=
  ⟨Reachable.init 0 1 (-1) 1 true false false 1000 400,
   (accelReachableInvariant encState0
      (Reachable.init 0 1 (-1) 1 true false false 1000 400)).2.2.2
     (List.replicate 1536 ⟨false, false, false, 0⟩) (by rw [List.length_replicate])
     (idleFrom_replicate 1536 encState0 rfl)⟩

/-- The `last` code after a moving decoder tick is the new phase code. -/
lemma encTick_last_moved (s : ClickEncoder) (i : Inputs)
    (hA : 0 ≤ s.pinA)
    (hodd : ((s.last : Int) - (encCode i.a i.b : Int)) % 2 ≠ 0) :
    (encTick s i).1.last = encCode i.a i.b := by
  unfold encTick
  rw [if_pos ⟨hA, hA⟩]
  dsimp only
  rw [if_pos hodd]

/-- Bundled effect of a moving tick on an enabled, active channel. -/
lemma serviceFull_moving_char (s : ClickEncoder) (i : Inputs)
    (hA : 0 ≤ s.pinA) (he : s.accelerationEnabled = true)
    (hodd : ((s.last : Int) - (encCode i.a i.b : Int)) % 2 ≠ 0) :
    (serviceFull s i).2.1 = true ∧
    (serviceFull s i).1.last = encCode i.a i.b ∧
    (serviceFull s i).1.acceleration =
      (if s.acceleration - encAccelDec ≤ encAccelTop - encAccelInc
       then s.acceleration - encAccelDec + encAccelInc
       else s.acceleration - encAccelDec) ∧
    (serviceFull s i).1.pinA = s.pinA ∧
    (serviceFull s i).1.accelerationEnabled = true := by
  refine ⟨?_, ?_, ?_, serviceFull_pinA s i,
    by rw [serviceFull_accelerationEnabled]; exact he⟩
  · rw [serviceFull_moved]; exact (encTick_moved_iff s i hA).mpr hodd
  · rw [serviceFull_last]; exact encTick_last_moved s i hA hodd
  · rw [serviceFull_acceleration]; exact encTick_acc_moved s i hA he hodd

/-- Two ticks, phase codes 1 then 0, from `last = 0` in the growth
region: the level gains exactly 46 and the phase code returns to 0. -/
lemma chunk_step (s : ClickEncoder) (hA : 0 ≤ s.pinA)
    (he : s.accelerationEnabled = true) (hl : s.last = 0)
    (ha2 : 2 ≤ s.acceleration) (hb : s.acceleration ≤ 3026) :
    (serviceFull (serviceFull s tickT).1 tickF).1.acceleration = s.acceleration + 46 ∧
    (serviceFull (serviceFull s tickT).1 tickF).1.last = 0 ∧
    (serviceFull (serviceFull s tickT).1 tickF).1.pinA = s.pinA ∧
    (serviceFull (serviceFull s tickT).1 tickF).1.accelerationEnabled = true := by
  have hodd1 : ((s.last : Int) - (encCode tickT.a tickT.b : Int)) % 2 ≠ 0 := by
    rw [hl]; decide
  obtain ⟨hm1, hl1, hacc1, hpa1, hen1⟩ := serviceFull_moving_char s tickT hA he hodd1
  have hodd2 : (((serviceFull s tickT).1.last : Int) -
      (encCode tickF.a tickF.b : Int)) % 2 ≠ 0 := by
    rw [hl1]; decide
  obtain ⟨hm2, hl2, hacc2, hpa2, hen2⟩ :=
    serviceFull_moving_char (serviceFull s tickT).1 tickF (by rw [hpa1]; exact hA)
      hen1 hodd2
  have hacc1v : (serviceFull s tickT).1.acceleration = s.acceleration + 23 := by
    rw [hacc1]; simp only [encAccelDec, encAccelTop, encAccelInc]
    split_ifs <;> omega
  refine ⟨?_, ?_, ?_, hen2⟩
  · rw [hacc2, hacc1v]; simp only [encAccelDec, encAccelTop, encAccelInc]
    split_ifs <;> omega
  · rw [hl2]; decide
  · rw [hpa2, hpa1]

/-- Iterating chunks in the growth region raises the level by 46 per
chunk. -/
lemma chunkRun_acc (n : Nat) :
    ∀ s : ClickEncoder, 0 ≤ s.pinA → s.accelerationEnabled = true →
      s.last = 0 → 2 ≤ s.acceleration → s.acceleration + 46 * n ≤ 3072 →
      (runService s (chunkList n)).1.acceleration = s.acceleration + 46 * n ∧
      (runService s (chunkList n)).1.last = 0 ∧
      (runService s (chunkList n)).1.pinA = s.pinA ∧
      (runService s (chunkList n)).1.accelerationEnabled = true := by
  induction n with
  | zero =>
    intro s _ he hl _ _
    exact ⟨by simp [chunkList, runService], by simp [chunkList, runService, hl], rfl, he⟩
  | succ n ih =>
    intro s hA he hl ha2 hbound
    obtain ⟨e1, e2, e3, e4⟩ := chunk_step s hA he hl ha2 (by omega)
    have key : (runService s (chunkList (n + 1))).1 =
        (runService (serviceFull (serviceFull s tickT).1 tickF).1 (chunkList n)).1 := rfl
    obtain ⟨f1, f2, f3, f4⟩ := ih (serviceFull (serviceFull s tickT).1 tickF).1
      (by rw [e3]; exact hA) e4 e2 (by omega) (by rw [e1]; omega)
    refine ⟨?_, ?_, ?_, ?_⟩
    · rw [key, f1, e1]; omega
    · rw [key]; exact f2
    · rw [key, f3, e3]
    · rw [key]; exact f4

/-- C4 counterexample: from the reachable state with acceleration level
3061, a moving `service()` tick decays the level to 3059 and, the
decayed value 3059 being above `ENC_ACCEL_TOP - ENC_ACCEL_INC = 3047`,
leaves it there — whereas the claim's `min(3072, level + 25)` clamping
formula demands 3072. -/
theorem serviceAccelNoClampCex :
    Reachable cexAccelState ∧
    cexAccelState.acceleration = 3061 ∧
    (serviceFull cexAccelState tickF).2.1 = true ∧
    (serviceFull cexAccelState tickF).1.acceleration = 3059 ∧
    min encAccelTop (cexAccelState.acceleration - encAccelDec + encAccelInc) = 3072 := by
  have h2a : (runService encState0 [tickT, tickF]).1.acceleration = 48 := by decide
  have h2l : (runService encState0 [tickT, tickF]).1.last = 0 := by decide
  have h2p : (runService encState0 [tickT, tickF]).1.pinA = 0 := by decide
  have h2e : (runService encState0 [tickT, tickF]).1.accelerationEnabled = true := by decide
  obtain ⟨h65a, h65l, h65p, h65e⟩ :=
    chunkRun_acc 65 (runService encState0 [tickT, tickF]).1
      (by omega) h2e h2l (by omega) (by omega)
  have hMida : cexMid.acceleration = 3038 := by
    unfold cexMid; rw [h65a, h2a]
    try omega
  have hMidl : cexMid.last = 0 := by unfold cexMid; exact h65l
  have hMidp : cexMid.pinA = 0 := by
    unfold cexMid; rw [h65p, h2p]
  have hMide : cexMid.accelerationEnabled = true := by unfold cexMid; exact h65e
  have hoddT : ((cexMid.last : Int) - (encCode tickT.a tickT.b : Int)) % 2 ≠ 0 := by
    rw [hMidl]; decide
  obtain ⟨mT, lT, aT, pT, eT⟩ :=
    serviceFull_moving_char cexMid tickT (by rw [hMidp]) hMide hoddT
  have hca : cexAccelState.acceleration = 3061 := by
    unfold cexAccelState
    rw [aT, hMida]
    decide
  have hcl : cexAccelState.last = 1 := by
    unfold cexAccelState
    rw [lT]; decide
  have hcp : cexAccelState.pinA = 0 := by
    unfold cexAccelState
    rw [pT, hMidp]
  have hce : cexAccelState.accelerationEnabled = true := by
    unfold cexAccelState; exact eT
  have hoddF : ((cexAccelState.last : Int) - (encCode tickF.a tickF.b : Int)) % 2 ≠ 0 := by
    rw [hcl]; decide
  obtain ⟨mF, lF, aF, pF, eF⟩ :=
    serviceFull_moving_char cexAccelState tickF (by rw [hcp]) hce hoddF
  refine ⟨?_, hca, mF, ?_, ?_⟩
  · exact Reachable.tick tickT
      (reachable_runService _ _ (reachable_runService _ _
        (Reachable.init 0 1 (-1) 1 true false false 1000 400)))
  · rw [aF, hca]
    decide
  · rw [hca]
    decide

/-! ## C6: the double-click window -/

/-- A pressed sample below the hold threshold: `keyDownTicks` advances,
no `Held`, and the double-click countdown decrements, firing `Clicked`
exactly when it stood at 1. -/
lemma buttonStep_press (holdTime dcTime : Nat) (c : BtnCore)
    (hk : c.keyDownTicks + 1 ≤ holdTime / encButtonInterval) :
    buttonStep true true holdTime dcTime c true =
      (⟨(if c.doubleClickTicks = 1 then Button.Clicked else c.button),
        c.keyDownTicks + 1, c.doubleClickTicks - 1⟩,
       if c.doubleClickTicks = 1 then [Button.Clicked] else []) := by
  obtain ⟨btn, kdt, dct⟩ := c
  have hk' : kdt + 1 ≤ holdTime / encButtonInterval := hk
  have hH : ¬(kdt + 1 > holdTime / encButtonInterval) := by omega
  rcases dct with _ | (_ | d) <;> simp [buttonStep, hH]

/-- An idle sample (key up, nothing debounced): only the countdown runs. -/
lemma buttonStep_idle (holdTime dcTime : Nat) (c : BtnCore)
    (hk : c.keyDownTicks = 0) :
    buttonStep true true holdTime dcTime c false =
      (⟨(if c.doubleClickTicks = 1 then Button.Clicked else c.button), 0,
        c.doubleClickTicks - 1⟩,
       if c.doubleClickTicks = 1 then [Button.Clicked] else []) := by
  obtain ⟨btn, kdt, dct⟩ := c
  have hk' : kdt = 0 := hk
  subst hk'
  rcases dct with _ | (_ | d) <;> simp [buttonStep]

/-- A debounced release with no live countdown (`doubleClickTicks ≤ 1`)
arms a fresh double-click window of `dcTime / 10` intervals, which the
same tick's countdown immediately decrements. -/
lemma buttonStep_release_arm (holdTime dcTime : Nat) (c : BtnCore)
    (hk : 2 ≤ c.keyDownTicks) (hb : c.button ≠ Button.Held)
    (hd : c.doubleClickTicks ≤ 1) (hW : 2 ≤ dcTime / encButtonInterval) :
    buttonStep true true holdTime dcTime c false =
      (⟨c.button, 0, dcTime / encButtonInterval - 1⟩, []) := by
  obtain ⟨btn, kdt, dct⟩ := c
  have hk' : 2 ≤ kdt := hk
  have hd' : dct ≤ 1 := hd
  have hb' : ¬(btn = Button.Held) := hb
  have h1 : kdt > 1 := by omega
  have h3 : ¬(dct > encSingleClickOnly) := by simp [encSingleClickOnly]; omega
  have h4 : dcTime / encButtonInterval > 0 := by omega
  have h5 : ¬(dcTime / encButtonInterval - 1 = 0) := by omega
  simp [buttonStep, h1, hb', h3, h4, h5]

/-- A debounced release inside a live window (`2 ≤ doubleClickTicks <
dcTime / 10`) fires `DoubleClicked` and clears the countdown. -/
lemma buttonStep_release_double (holdTime dcTime : Nat) (c : BtnCore)
    (hk : 2 ≤ c.keyDownTicks) (hb : c.button ≠ Button.Held)
    (hd2 : 2 ≤ c.doubleClickTicks)
    (hdW : c.doubleClickTicks < dcTime / encButtonInterval) :
    buttonStep true true holdTime dcTime c false =
      (⟨Button.DoubleClicked, 0, 0⟩, [Button.DoubleClicked]) := by
  obtain ⟨btn, kdt, dct⟩ := c
  have hk' : 2 ≤ kdt := hk
  have hd2' : 2 ≤ dct := hd2
  have hdW' : dct < dcTime / encButtonInterval := hdW
  have hb' : ¬(btn = Button.Held) := hb
  have h1 : kdt > 1 := by omega
  have h3 : dct > encSingleClickOnly := by simp [encSingleClickOnly]; omega
  simp [buttonStep, h1, hb', h3, hdW']

/-- A run of pressed samples below the hold threshold: `keyDownTicks`
accumulates and the countdown keeps decrementing, firing `Clicked`
exactly once if it runs out during the presses. -/
lemma btnRun_press (holdTime dcTime n : Nat) :
    ∀ c : BtnCore, c.keyDownTicks + n ≤ holdTime / encButtonInterval →
      btnRun true true holdTime dcTime c (List.replicate n true) =
        (⟨(if 0 < c.doubleClickTicks ∧ c.doubleClickTicks ≤ n
           then Button.Clicked else c.button),
          c.keyDownTicks + n, c.doubleClickTicks - n⟩,
         if 0 < c.doubleClickTicks ∧ c.doubleClickTicks ≤ n
         then [Button.Clicked] else []) := by
  induction n with
  | zero =>
    intro c _
    obtain ⟨btn, kdt, dct⟩ := c
    simp [btnRun]
    constructor
    · rw [if_neg (by omega)]
    · omega
  | succ n ih =>
    intro c hk
    rw [List.replicate_succ]
    have hstep := buttonStep_press holdTime dcTime c (by omega)
    have hexp : btnRun true true holdTime dcTime c (true :: List.replicate n true) =
        ((btnRun true true holdTime dcTime
            (buttonStep true true holdTime dcTime c true).1 (List.replicate n true)).1,
         (buttonStep true true holdTime dcTime c true).2 ++
           (btnRun true true holdTime dcTime
             (buttonStep true true holdTime dcTime c true).1 (List.replicate n true)).2) := rfl
    rw [hexp, hstep]
    rw [ih ⟨(if c.doubleClickTicks = 1 then Button.Clicked else c.button),
          c.keyDownTicks + 1, c.doubleClickTicks - 1⟩
        (by show c.keyDownTicks + 1 + n ≤ holdTime / encButtonInterval; omega)]
    simp only [Prod.mk.injEq, BtnCore.mk.injEq]
    refine ⟨⟨?_, by omega, by omega⟩, ?_⟩
    · split_ifs <;> first | rfl | omega
    · split_ifs <;> first | rfl | omega

/-- A run of idle samples: only the countdown runs, firing `Clicked`
exactly once if it expires within the run. -/
lemma btnRun_idle (holdTime dcTime n : Nat) :
    ∀ c : BtnCore, c.keyDownTicks = 0 →
      btnRun true true holdTime dcTime c (List.replicate n false) =
        (⟨(if 0 < c.doubleClickTicks ∧ c.doubleClickTicks ≤ n
           then Button.Clicked else c.button),
          0, c.doubleClickTicks - n⟩,
         if 0 < c.doubleClickTicks ∧ c.doubleClickTicks ≤ n
         then [Button.Clicked] else []) := by
  induction n with
  | zero =>
    intro c hk
    obtain ⟨btn, kdt, dct⟩ := c
    have hk' : kdt = 0 := hk
    subst hk'
    simp [btnRun]
    constructor
    · rw [if_neg (by omega)]
    · omega
  | succ n ih =>
    intro c hk
    rw [List.replicate_succ]
    have hstep := buttonStep_idle holdTime dcTime c hk
    have hexp : btnRun true true holdTime dcTime c (false :: List.replicate n false) =
        ((btnRun true true holdTime dcTime
            (buttonStep true true holdTime dcTime c false).1 (List.replicate n false)).1,
         (buttonStep true true holdTime dcTime c false).2 ++
           (btnRun true true holdTime dcTime
             (buttonStep true true holdTime dcTime c false).1 (List.replicate n false)).2) := rfl
    rw [hexp, hstep]
    rw [ih ⟨(if c.doubleClickTicks = 1 then Button.Clicked else c.button),
          0, c.doubleClickTicks - 1⟩ rfl]
    simp only [Prod.mk.injEq, BtnCore.mk.injEq]
    refine ⟨⟨?_, trivial, by omega⟩, ?_⟩
    · split_ifs <;> first | rfl | omega
    · split_ifs <;> first | rfl | omega

/-- Events of a concatenated run are the concatenated events. -/
lemma btnRun_append (holdTime dcTime : Nat) (l₁ l₂ : List Bool) :
    ∀ c : BtnCore,
      btnRun true true holdTime dcTime c (l₁ ++ l₂) =
        ((btnRun true true holdTime dcTime
            (btnRun true true holdTime dcTime c l₁).1 l₂).1,
         (btnRun true true holdTime dcTime c l₁).2 ++
           (btnRun true true holdTime dcTime
             (btnRun true true holdTime dcTime c l₁).1 l₂).2) := by
  induction l₁ with
  | nil => intro c; simp [btnRun]
  | cons d rest ih =>
    intro c
    simp only [List.cons_append, btnRun, List.append_eq]
    rw [ih]
    simp [List.append_assoc]

/-- The function `buttonSample` keeps the button pin. -/
lemma buttonSample_pinBTN (s : ClickEncoder) (d : Bool) :
    (buttonSample s d).1.pinBTN = s.pinBTN := rfl

/-- One `service()` call with the encoder channel disabled, the button
pin present, and `millis()` exactly one sampling interval past the last
check: the whole call is one button sample on the updated state. -/
lemma serviceFull_btn_gate (s : ClickEncoder) (b : Bool) (c : Nat)
    (hA : s.pinA < 0) (hB : 0 ≤ s.pinBTN) (hc : s.lastButtonCheck = c) :
    serviceFull s ⟨false, false, b, c + encButtonInterval⟩ =
      ((buttonSample {s with lastButtonCheck := c + encButtonInterval} b).1, false,
       (buttonSample {s with lastButtonCheck := c + encButtonInterval} b).2) := by
  have henc := encTick_pinA_neg s ⟨false, false, b, c + encButtonInterval⟩ hA
  simp only [serviceFull, henc]
  rw [if_pos ⟨hB, by rw [hc]; simp only [encButtonInterval]; omega⟩]

/-- Driving `service()` with button-only tick inputs reproduces the
button state machine's event stream. -/
lemma runService_btnRun_events (bits : List Bool) :
    ∀ (s : ClickEncoder) (c : Nat), s.pinA < 0 → 0 ≤ s.pinBTN → s.lastButtonCheck = c →
      (runService s (btnInputs c bits)).2 =
        (btnRun s.doubleClickEnabled s.buttonHeldEnabled s.buttonHoldTime
            s.buttonDoubleClickTime ⟨s.button, s.keyDownTicks, s.doubleClickTicks⟩ bits).2 := by
  induction bits with
  | nil => intro s c _ _ _; rfl
  | cons b rest ih =>
    intro s c hA hB hc
    have hstep := serviceFull_btn_gate s b c hA hB hc
    have hexp : (runService s (btnInputs c (b :: rest))).2 =
        (serviceFull s ⟨false, false, b, c + encButtonInterval⟩).2.2 ++
          (runService (serviceFull s ⟨false, false, b, c + encButtonInterval⟩).1
            (btnInputs (c + encButtonInterval) rest)).2 := rfl
    rw [hexp, hstep]
    dsimp only
    rw [ih (buttonSample {s with lastButtonCheck := c + encButtonInterval} b).1
        (c + encButtonInterval) (by rw [buttonSample_pinA]; exact hA)
        (by rw [buttonSample_pinBTN]; exact hB) rfl]
    rfl

lemma btnRun_single (holdTime dcTime : Nat) (c : BtnCore) (d : Bool) :
    btnRun true true holdTime dcTime c [d] =
      ((buttonStep true true holdTime dcTime c d).1,
       (buttonStep true true holdTime dcTime c d).2 ++ []) := rfl

/-- C6 (amended): with double-click detection on and both presses
debounced (pressed for at least two sampling intervals, below the hold
threshold), let `W = doubleClickWindowMs / 10` be the window in sampling
intervals and `k = g + p2 + 1` the number of intervals between the two
releases (gap `g`, second press `p2`).  The state machine produces:
exactly one `DoubleClicked` and no `Clicked` when `k ≤ W - 2`; a single
merged `Clicked` when `k = W - 1` (release exactly one interval before
expiry re-arms the countdown, although the separation is still below
`doubleClickWindowMs`); and two separate `Clicked` events when `k ≥ W`
(separation at or beyond the window). -/
theorem doubleClickWindow (holdTime dcTime p1 g p2 : Nat)
    (hW : 2 ≤ dcTime / encButtonInterval)
    (hp1 : 2 ≤ p1) (hp1h : p1 ≤ holdTime / encButtonInterval)
    (hp2 : 2 ≤ p2) (hp2h : p2 ≤ holdTime / encButtonInterval) :
    (g + p2 + 3 ≤ dcTime / encButtonInterval →
      (runService (mkInit (-1) (-1) 0 1 true false false holdTime dcTime)
        (btnInputs 0 (List.replicate p1 true ++ [false] ++ List.replicate g false ++
          List.replicate p2 true ++ [false] ++
          List.replicate (dcTime / encButtonInterval) false))).2 =
        [Button.DoubleClicked]) ∧
    (g + p2 + 2 = dcTime / encButtonInterval →
      (runService (mkInit (-1) (-1) 0 1 true false false holdTime dcTime)
        (btnInputs 0 (List.replicate p1 true ++ [false] ++ List.replicate g false ++
          List.replicate p2 true ++ [false] ++
          List.replicate (dcTime / encButtonInterval) false))).2 =
        [Button.Clicked]) ∧
    (dcTime / encButtonInterval ≤ g + p2 + 1 →
      (runService (mkInit (-1) (-1) 0 1 true false false holdTime dcTime)
        (btnInputs 0 (List.replicate p1 true ++ [false] ++ List.replicate g false ++
          List.replicate p2 true ++ [false] ++
          List.replicate (dcTime / encButtonInterval) false))).2 =
        [Button.Clicked, Button.Clicked]) := by
  have hbridge : ∀ bits : List Bool,
      (runService (mkInit (-1) (-1) 0 1 true false false holdTime dcTime)
        (btnInputs 0 bits)).2 =
      (btnRun true true holdTime dcTime ⟨Button.Open, 0, 0⟩ bits).2 := by
    intro bits
    exact runService_btnRun_events bits
      (mkInit (-1) (-1) 0 1 true false false holdTime dcTime) 0
      (by show (-1 : Int) < 0; norm_num) (by show (0 : Int) ≤ 0; norm_num) rfl
  have h1 : btnRun true true holdTime dcTime ⟨Button.Open, 0, 0⟩
      (List.replicate p1 true) = (⟨Button.Open, p1, 0⟩, []) := by
    rw [btnRun_press holdTime dcTime p1 ⟨Button.Open, 0, 0⟩ (by simpa using hp1h)]
    simp
  have h2 : btnRun true true holdTime dcTime ⟨Button.Open, p1, 0⟩ [false] =
      (⟨Button.Open, 0, dcTime / encButtonInterval - 1⟩, []) := by
    rw [btnRun_single,
        buttonStep_release_arm holdTime dcTime ⟨Button.Open, p1, 0⟩ hp1 (by simp)
          (by simp) hW]
    simp
  refine ⟨?_, ?_, ?_⟩
  · -- k ≤ W - 2: one DoubleClicked
    intro hcase
    rw [hbridge]
    have h3 : btnRun true true holdTime dcTime ⟨Button.Open, 0,
        dcTime / encButtonInterval - 1⟩ (List.replicate g false) =
        (⟨Button.Open, 0, dcTime / encButtonInterval - 1 - g⟩, []) := by
      rw [btnRun_idle holdTime dcTime g _ rfl]
      dsimp only
      rw [if_neg (by omega), if_neg (by omega)]
    have h4 : btnRun true true holdTime dcTime ⟨Button.Open, 0,
        dcTime / encButtonInterval - 1 - g⟩ (List.replicate p2 true) =
        (⟨Button.Open, p2, dcTime / encButtonInterval - 1 - g - p2⟩, []) := by
      rw [btnRun_press holdTime dcTime p2 _ (by simpa using hp2h)]
      dsimp only
      rw [if_neg (by omega), if_neg (by omega)]
      simp
    have h5 : btnRun true true holdTime dcTime ⟨Button.Open, p2,
        dcTime / encButtonInterval - 1 - g - p2⟩ [false] =
        (⟨Button.DoubleClicked, 0, 0⟩, [Button.DoubleClicked]) := by
      rw [btnRun_single,
          buttonStep_release_double holdTime dcTime _ hp2 (by simp)
            (by show 2 ≤ dcTime / encButtonInterval - 1 - g - p2; omega)
            (by show dcTime / encButtonInterval - 1 - g - p2 <
                  dcTime / encButtonInterval; omega)]
      simp
    have h6 : btnRun true true holdTime dcTime ⟨Button.DoubleClicked, 0, 0⟩
        (List.replicate (dcTime / encButtonInterval) false) =
        (⟨Button.DoubleClicked, 0, 0⟩, []) := by
      rw [btnRun_idle holdTime dcTime _ _ rfl]
      dsimp only
      rw [if_neg (by omega), if_neg (by omega)]
      simp
    simp only [btnRun_append, h1, h2, h3, h4, h5, h6]
    simp
  · -- k = W - 1: the presses merge into a single Clicked
    intro hcase
    rw [hbridge]
    have h3 : btnRun true true holdTime dcTime ⟨Button.Open, 0,
        dcTime / encButtonInterval - 1⟩ (List.replicate g false) =
        (⟨Button.Open, 0, dcTime / encButtonInterval - 1 - g⟩, []) := by
      rw [btnRun_idle holdTime dcTime g _ rfl]
      dsimp only
      rw [if_neg (by omega), if_neg (by omega)]
    have h4 : btnRun true true holdTime dcTime ⟨Button.Open, 0,
        dcTime / encButtonInterval - 1 - g⟩ (List.replicate p2 true) =
        (⟨Button.Open, p2, dcTime / encButtonInterval - 1 - g - p2⟩, []) := by
      rw [btnRun_press holdTime dcTime p2 _ (by simpa using hp2h)]
      dsimp only
      rw [if_neg (by omega), if_neg (by omega)]
      simp
    have h5 : btnRun true true holdTime dcTime ⟨Button.Open, p2,
        dcTime / encButtonInterval - 1 - g - p2⟩ [false] =
        (⟨Button.Open, 0, dcTime / encButtonInterval - 1⟩, []) := by
      rw [btnRun_single,
          buttonStep_release_arm holdTime dcTime _ hp2 (by simp)
            (by show dcTime / encButtonInterval - 1 - g - p2 ≤ 1; omega) hW]
      simp
    have h6 : btnRun true true holdTime dcTime ⟨Button.Open, 0,
        dcTime / encButtonInterval - 1⟩
        (List.replicate (dcTime / encButtonInterval) false) =
        (⟨Button.Clicked, 0, 0⟩, [Button.Clicked]) := by
      rw [btnRun_idle holdTime dcTime _ _ rfl]
      dsimp only
      rw [if_pos (by omega), if_pos (by omega)]
      simp <;> omega
    simp only [btnRun_append, h1, h2, h3, h4, h5, h6]
    simp
  · -- k ≥ W: two separate Clicked events
    intro hcase
    rw [hbridge]
    rcases le_or_lt (dcTime / encButtonInterval - 1) g with hg | hg
    · -- the first click fires during the gap
      have h3 : btnRun true true holdTime dcTime ⟨Button.Open, 0,
          dcTime / encButtonInterval - 1⟩ (List.replicate g false) =
          (⟨Button.Clicked, 0, 0⟩, [Button.Clicked]) := by
        rw [btnRun_idle holdTime dcTime g _ rfl]
        dsimp only
        rw [if_pos (by omega), if_pos (by omega)]
        simp <;> omega
      have h4 : btnRun true true holdTime dcTime ⟨Button.Clicked, 0, 0⟩
          (List.replicate p2 true) = (⟨Button.Clicked, p2, 0⟩, []) := by
        rw [btnRun_press holdTime dcTime p2 _ (by simpa using hp2h)]
        dsimp only
        rw [if_neg (by omega), if_neg (by omega)]
        simp
      have h5 : btnRun true true holdTime dcTime ⟨Button.Clicked, p2, 0⟩ [false] =
          (⟨Button.Clicked, 0, dcTime / encButtonInterval - 1⟩, []) := by
        rw [btnRun_single,
            buttonStep_release_arm holdTime dcTime _ hp2 (by simp) (by simp) hW]
        simp
      have h6 : btnRun true true holdTime dcTime ⟨Button.Clicked, 0,
          dcTime / encButtonInterval - 1⟩
          (List.replicate (dcTime / encButtonInterval) false) =
          (⟨Button.Clicked, 0, 0⟩, [Button.Clicked]) := by
        rw [btnRun_idle holdTime dcTime _ _ rfl]
        dsimp only
        rw [if_pos (by omega), if_pos (by omega)]
        simp <;> omega
      simp only [btnRun_append, h1, h2, h3, h4, h5, h6]
      simp
    · -- the first click fires during the second press
      have h3 : btnRun true true holdTime dcTime ⟨Button.Open, 0,
          dcTime / encButtonInterval - 1⟩ (List.replicate g false) =
          (⟨Button.Open, 0, dcTime / encButtonInterval - 1 - g⟩, []) := by
        rw [btnRun_idle holdTime dcTime g _ rfl]
        dsimp only
        rw [if_neg (by omega), if_neg (by omega)]
      have h4 : btnRun true true holdTime dcTime ⟨Button.Open, 0,
          dcTime / encButtonInterval - 1 - g⟩ (List.replicate p2 true) =
          (⟨Button.Clicked, p2, 0⟩, [Button.Clicked]) := by
        rw [btnRun_press holdTime dcTime p2 _ (by simpa using hp2h)]
        dsimp only
        rw [if_pos (by omega), if_pos (by omega)]
        simp <;> omega
      have h5 : btnRun true true holdTime dcTime ⟨Button.Clicked, p2, 0⟩ [false] =
          (⟨Button.Clicked, 0, dcTime / encButtonInterval - 1⟩, []) := by
        rw [btnRun_single,
            buttonStep_release_arm holdTime dcTime _ hp2 (by simp) (by simp) hW]
        simp
      have h6 : btnRun true true holdTime dcTime ⟨Button.Clicked, 0,
          dcTime / encButtonInterval - 1⟩
          (List.replicate (dcTime / encButtonInterval) false) =
          (⟨Button.Clicked, 0, 0⟩, [Button.Clicked]) := by
        rw [btnRun_idle holdTime dcTime _ _ rfl]
        dsimp only
        rw [if_pos (by omega), if_pos (by omega)]
        simp <;> omega
      simp only [btnRun_append, h1, h2, h3, h4, h5, h6]
      simp

/-- C6 counterexample: window `W = 5` sampling intervals
(`doubleClickWindowMs = 50`); two debounced presses (each pressed for 2
intervals) whose releases are 4 intervals = 40 ms apart — less than the
50 ms window.  The claim demands one `DoubleClicked` and no `Clicked`,
but the second release lands exactly one interval before countdown
expiry, the release handler re-arms the countdown instead of firing
`DoubleClicked`, and the two presses merge into a single `Clicked`. -/
theorem doubleClickBoundaryCex :
    (runService (mkInit (-1) (-1) 0 1 true false false 1000 50)
        (btnInputs 0 [true, true, false, false, true, true, false,
                      false, false, false, false, false])).2 = [Button.Clicked] ∧
    ((runService (mkInit (-1) (-1) 0 1 true false false 1000 50)
        (btnInputs 0 [true, true, false, false, true, true, false,
                      false, false, false, false, false])).2).count
        Button.DoubleClicked = 0 ∧
    ((runService (mkInit (-1) (-1) 0 1 true false false 1000 50)
        (btnInputs 0 [true, true, false, false, true, true, false,
                      false, false, false, false, false])).2).count
        Button.Clicked = 1 := by
  refine ⟨by decide, by decide, by decide⟩

/-- Witness for C6 (amended): window 60 ms (6 intervals), presses of 2
intervals separated by a 1-interval gap (releases 4 intervals apart):
exactly one `DoubleClicked`. -/
theorem doubleClickWindow_witness :
    (2 ≤ 60 / encButtonInterval ∧ 2 ≤ (2:Nat) ∧ 2 ≤ 1000 / encButtonInterval ∧
      1 + 2 + 3 ≤ 60 / encButtonInterval) ∧
    (runService (mkInit (-1) (-1) 0 1 true false false 1000 60)
        (btnInputs 0 (List.replicate 2 true ++ [false] ++ List.replicate 1 false ++
          List.replicate 2 true ++ [false] ++
          List.replicate (60 / encButtonInterval) false))).2 = [Button.DoubleClicked] :=
  ⟨⟨by decide, by decide, by decide, by decide⟩,
   (doubleClickWindow 1000 60 2 1 2 (by decide) (by decide) (by decide) (by decide)
      (by decide)).1 (by decide)⟩
